import Mathlib

/-!
Verification of the retrieval-augmented document question-answering core:
document chunking, the vector index (insert / search / count / clear), the
query orchestration with citation formatting, and the upload-side filename
handling.  Python strings are embedded as `List Char`, floating-point scores
as `ℚ`, and the external capabilities (embedding model, distance metric of
the vector store, generative model) as explicit function parameters; a
capability returning `none` models the corresponding provider error.
-/

namespace RagQA

/-- Python strings are embedded as lists of characters. -/
abbrev Str := List Char

/-! ## Configuration constants (backend/config.py, class Settings) -/

/-- Settings.CHUNK_SIZE default. -/
def CHUNK_SIZE : Nat := 1000

/-- Settings.CHUNK_OVERLAP default. -/
def CHUNK_OVERLAP : Nat := 200

/-- Settings.TOP_K_RESULTS default. -/
def TOP_K_RESULTS : Nat := 5

/-- Settings.MAX_UPLOAD_SIZE default (10 MB). -/
def MAX_UPLOAD_SIZE : Nat := 10 * 1024 * 1024

/-! ## Data model -/

/-- The metadata dict attached to each chunk by
`DocumentProcessor.process_pdf`: source filename, page number, chunk id. -/
structure ChunkMeta where
  source : Str
  page : Nat
  chunk_id : Nat
deriving DecidableEq

/-- A document chunk as produced by `DocumentProcessor.process_pdf`:
a text plus its metadata dict. -/
structure Chunk where
  text : Str
  metadata : ChunkMeta
deriving DecidableEq

/-- An entry stored in the vector collection: chunk text, metadata and the
embedding vector computed at insert time. -/
structure Entry where
  text : Str
  metadata : ChunkMeta
  vector : List ℚ
deriving DecidableEq

/-- State of the persistent vector collection.  `none` models the situation
where the underlying Chroma collection does not exist yet (first run, or
after a delete without re-creation); `some es` is an existing collection
holding the entries `es` in insertion order. -/
structure StoreState where
  collection : Option (List Entry)
deriving DecidableEq

/-- The entries visible in the store (empty when the collection is missing). -/
def entriesOf (st : StoreState) : List Entry := st.collection.getD []

/-- The external capabilities consumed by the core (spec section 6):
the embedding model, the distance metric used by the vector store to rank
entries, and the generative model.  `none` models a provider error. -/
structure Caps where
  embed : Str → Option (List ℚ)
  dist : List ℚ → List ℚ → ℚ
  generate : Str → Option Str

/-! ## VectorStore (backend/services/vector_store.py) -/

/-- VectorStore.get_collection_count: `client.get_collection("documents")`
followed by `.count()`; any exception (in particular a missing collection)
is swallowed and 0 is returned. -/
def getCollectionCount (st : StoreState) : Nat :=
  match st.collection with
  | none => 0
  | some es => es.length

/-- Build the entries appended by one insert call: each chunk text paired
with its metadata and the vector returned by the batched embedding call. -/
def mkEntries : List Chunk → List (List ℚ) → List Entry
  | [], _ => []
  | _, [] => []
  | c :: cs, v :: vs => ⟨c.text, c.metadata, v⟩ :: mkEntries cs vs

/-- VectorStore.add_documents: extracts the texts and metadata dicts of the
chunks and hands them to `Chroma.add_texts`.  The underlying `add_texts` is
Modelled from the spec: the embedding capability is invoked batched in one
call for the whole batch; it fails if any item fails, and on failure nothing
is committed (all-or-nothing per call), otherwise all entries are appended.
The pair returned is (raised error or success flag, resulting store state);
on error the state is unchanged. -/
def addDocuments (caps : Caps) (st : StoreState) (chunks : List Chunk) :
    Except Str Bool × StoreState :=
  match (chunks.map Chunk.text).mapM caps.embed with
  | none => (Except.error "Error adding documents to vector store".data, st)
  | some vecs => (Except.ok true, ⟨some (entriesOf st ++ mkEntries chunks vecs)⟩)

/-- Ranking relation used by the vector store: compare scored entries by
their distance component. -/
def scoreLE (a b : Entry × ℚ) : Prop := a.2 ≤ b.2

instance : DecidableRel scoreLE := fun a b => inferInstanceAs (Decidable (a.2 ≤ b.2))

instance : IsTotal (Entry × ℚ) scoreLE := ⟨fun a b => le_total a.2 b.2⟩

instance : IsTrans (Entry × ℚ) scoreLE := ⟨fun _ _ _ => le_trans⟩

/-- Modelled from the spec: `Chroma.similarity_search_with_score` (external
vector store library).  Computes the query embedding once, compares it
against all stored vectors with the distance capability, and returns the k
closest entries ordered by ascending distance; `none` models an
EmbeddingError on the query. -/
def knn (caps : Caps) (st : StoreState) (q : Str) (k : Nat) :
    Option (List (Entry × ℚ)) :=
  match caps.embed q with
  | none => none
  | some qv =>
      some ((((entriesOf st).map (fun e => (e, caps.dist qv e.vector))).insertionSort
        scoreLE).take k)

/-- A search hit as formatted by `VectorStore.similarity_search`. -/
structure ScoredResult where
  text : Str
  metadata : ChunkMeta
  score : ℚ
deriving DecidableEq

/-- VectorStore.similarity_search: runs the k-nearest-neighbour search and
formats each (document, score) pair into a result dict; any underlying
exception is re-raised as a search error. -/
def similaritySearch (caps : Caps) (st : StoreState) (q : Str) (k : Nat) :
    Except Str (List ScoredResult) :=
  match knn caps st q k with
  | none => Except.error "Error performing similarity search".data
  | some rs => Except.ok (rs.map (fun p => ⟨p.1.text, p.1.metadata, p.2⟩))

/-- VectorStore.clear_collection: deletes the "documents" collection (an
exception — e.g. the collection is missing — is re-raised) and immediately
re-creates an empty usable collection via the Chroma constructor.  The pair
is (raised error or success flag, resulting state). -/
def clearCollection (st : StoreState) : Except Str Bool × StoreState :=
  match st.collection with
  | none => (Except.error "Error clearing collection".data, st)
  | some _ => (Except.ok true, ⟨some []⟩)

/-! ## Chunker (backend/services/document_processor.py)

`DocumentProcessor` delegates the actual splitting to the external
`RecursiveCharacterTextSplitter`, configured with chunk size `CHUNK_SIZE`,
overlap `CHUNK_OVERLAP` and the separator hierarchy
`["\n\n", "\n", " ", ""]`.  The splitter itself is therefore modelled from
the spec (section 4.1); the per-chunk metadata assembly around it is from
the source. -/

/-- Split a text on every occurrence of a (non-empty) separator sequence,
dropping the separator; the third argument accumulates the current piece in
reverse.  The first argument is recursion fuel — always instantiated with
the text length, which bounds the number of steps, so the fuel-exhausted
fallback that emits the remaining text is never reached. -/
def splitOnAux (sep : Str) : Nat → Str → Str → List Str
  | _, [], acc => [acc.reverse]
  | 0, rest, acc => [acc.reverse ++ rest]
  | fuel + 1, c :: cs, acc =>
      if sep.isPrefixOf (c :: cs) ∧ 0 < sep.length then
        acc.reverse :: splitOnAux sep fuel (cs.drop (sep.length - 1)) []
      else
        splitOnAux sep fuel cs (c :: acc)

/-- Modelled from the spec: split `text` on a separator, keeping only the
non-empty pieces (an empty piece contributes no chunk). -/
def splitOn (sep : Str) (text : Str) : List Str :=
  (splitOnAux sep text.length text []).filter (fun p => !p.isEmpty)

/-- The separator hierarchy configured in DocumentProcessor: paragraph
breaks, then line breaks, then spaces; the final empty separator of the
source corresponds to the character-level base case of `splitPieces`. -/
def separators : List Str := [['\n', '\n'], ['\n'], [' ']]

/-- Modelled from the spec: recursive separator-based splitting.  A piece is
split on the current separator; a resulting piece still exceeding the
maximum chunk size is split again with the next finer separator, descending
to individual characters. -/
def splitPieces (chunkSize : Nat) : List Str → Str → List Str
  | [], text => text.map (fun c => [c])
  | sep :: seps, text =>
      (splitOn sep text).flatMap (fun p =>
        if p.length ≤ chunkSize then [p] else splitPieces chunkSize seps p)

/-- The last `n` characters of a text (all of it when it is shorter). -/
def takeRight (n : Nat) (l : Str) : Str := l.drop (l.length - n)

/-- Modelled from the spec: merge split pieces into chunks of at most the
maximum chunk size; when a chunk is emitted, the overlap window — the last
`overlap` characters of the emitted chunk — is copied into the start of the
next chunk. -/
def mergeAux (chunkSize overlap : Nat) : List Str → Str → List Str
  | [], cur => if cur.isEmpty then [] else [cur]
  | p :: ps, cur =>
      if cur.isEmpty then mergeAux chunkSize overlap ps p
      else if cur.length + p.length ≤ chunkSize then
        mergeAux chunkSize overlap ps (cur ++ p)
      else
        cur :: mergeAux chunkSize overlap ps (takeRight overlap cur ++ p)

/-- Modelled from the spec: the full text splitter — recursive
separator-based splitting followed by merging with overlap. -/
def splitText (chunkSize overlap : Nat) (text : Str) : List Str :=
  mergeAux chunkSize overlap (splitPieces chunkSize separators text) []

/-- One page of an extracted PDF: its zero-based page number and its text.
The external PDF loader produces one document per page, carrying the page
number in its metadata. -/
structure Page where
  page : Nat
  text : Str
deriving DecidableEq

/-- Python `enumerate` starting at `i`. -/
def enumerate (i : Nat) : List α → List (Nat × α)
  | [] => []
  | a :: l => (i, a) :: enumerate (i + 1) l

/-- DocumentProcessor.process_pdf, after loading: the loader yields one
(page number, text) document per page, `split_documents` splits each page
text separately (each chunk inheriting the page metadata of its page), and
the source loop attaches `source`, `page` and `chunk_id = enumerate index`
to each chunk. -/
def processPdf (chunkSize overlap : Nat) (filename : Str) (pages : List Page) :
    List Chunk :=
  let docs := pages.flatMap (fun pg =>
    (splitText chunkSize overlap pg.text).map (fun t => (t, pg.page)))
  (enumerate 0 docs).map (fun p => ⟨p.2.1, ⟨filename, p.2.2, p.1⟩⟩)

/-! ## Answerer (backend/services/rag_chain.py) -/

/-- A retrieved source document as seen by `RAGChain.query`: its page
content and the `source` / `page` metadata fields. -/
structure SourceDoc where
  page_content : Str
  source : Str
  page : Nat
deriving DecidableEq

/-- A formatted citation in the query response. -/
structure SourceDisp where
  text : Str
  source : Str
  page : Nat
deriving DecidableEq

/-- The citation formatting of RAGChain.query:
`doc.page_content[:200] + "..."` with `source` and `page` copied from the
document metadata. -/
def formatSource (d : SourceDoc) : SourceDisp :=
  ⟨d.page_content.take 200 ++ "...".data, d.source, d.page⟩

/-- The documents retrieved for a question: the retriever returned by
`VectorStore.get_retriever` performs the top-`TOP_K_RESULTS` similarity
search and exposes each hit as a document.  Empty when the query embedding
fails. -/
def retrievedDocs (caps : Caps) (st : StoreState) (question : Str) :
    List SourceDoc :=
  match knn caps st question TOP_K_RESULTS with
  | none => []
  | some rs => rs.map (fun p => ⟨p.1.text, p.1.metadata.source, p.1.metadata.page⟩)

/-- The stuff-chain context: retrieved page contents joined by blank lines. -/
def contextOf (docs : List SourceDoc) : Str :=
  List.intercalate ['\n', '\n'] (docs.map SourceDoc.page_content)

/-- The rendered prompt: the fixed instruction of the RAGChain template with
the context and the verbatim question substituted. -/
def buildPrompt (context question : Str) : Str :=
  "Using the following documents, answer the question succinctly and accurately. If the answer cannot be found in the documents, say that you cannot find this information in the provided documents.\n\nDocuments:\n".data
    ++ context ++ "\n\nQuestion: ".data ++ question ++ "\n\nAnswer:".data

/-- The result dict returned by RAGChain.query. -/
structure QueryResult where
  answer : Str
  sources : List SourceDisp
  question : Str
deriving DecidableEq

/-- RAGChain.query: build the retriever and the RetrievalQA chain, run the
question through it (retrieve top-k documents, assemble the prompt, invoke
the generative model), then format the answer together with the truncated
source citations.  The Boolean reports whether the generation capability
was invoked.  Retrieval and generation errors are re-raised as query
errors. -/
def ragChainQuery (caps : Caps) (st : StoreState) (question : Str) :
    Except Str QueryResult × Bool :=
  match knn caps st question TOP_K_RESULTS with
  | none => (Except.error "Error processing query".data, false)
  | some rs =>
      let docs := rs.map (fun p =>
        SourceDoc.mk p.1.text p.1.metadata.source p.1.metadata.page)
      match caps.generate (buildPrompt (contextOf docs) question) with
      | none => (Except.error "Error processing query".data, true)
      | some ans => (Except.ok ⟨ans, docs.map formatSource, question⟩, true)

/-! ## API layer (backend/main.py) and helpers (backend/utils/helpers.py) -/

/-- The error outcomes of the API layer: the no-documents rejection of the
query endpoint, the two upload validation rejections, and re-raised
internal errors. -/
inductive AppError where
  | noDocuments
  | notPdf
  | tooLarge
  | internalError (msg : Str)
deriving DecidableEq

/-- query_documents (POST /query): reject with the no-documents error when
the collection count is zero, otherwise run the RAG chain on the question.
The Boolean reports whether the generation capability was invoked. -/
def queryDocuments (caps : Caps) (st : StoreState) (question : Str) :
    Except AppError QueryResult × Bool :=
  if getCollectionCount st = 0 then (Except.error AppError.noDocuments, false)
  else
    match ragChainQuery caps st question with
    | (Except.error e, g) => (Except.error (AppError.internalError e), g)
    | (Except.ok r, g) => (Except.ok r, g)

/-- helpers.validate_pdf: `filename.lower().endswith(".pdf")`. -/
def validatePdf (filename : Str) : Bool :=
  ".pdf".data.isSuffixOf (filename.map Char.toLower)

/-- Python `os.path.basename` (posix): everything after the last slash. -/
def basename (s : Str) : Str :=
  (s.reverse.takeWhile (fun c => c ≠ '/')).reverse

/-- ASCII model of the Python regex class `\w`: letters, digits and the
underscore. -/
def isWordChar (c : Char) : Bool := c.isAlphanum || c = '_'

/-- The characters kept by the sanitizing substitution
`re.sub(r"[^\w\s\-\.]", "", filename)`: word characters, whitespace,
dashes and dots. -/
def keepChar (c : Char) : Bool := isWordChar c || c.isWhitespace || c = '-' || c = '.'

/-- helpers.sanitize_filename: take the basename, then delete every
character that is not a word character, whitespace, a dash or a dot. -/
def sanitizeFilename (filename : Str) : Str :=
  (basename filename).filter keepChar

/-- An uploaded file as the endpoint sees it: its client-supplied filename,
its content size in bytes, and the pages the external PDF loader can
extract from it (`none` models an extraction failure). -/
structure UploadFile where
  filename : Str
  size : Nat
  pages : Option (List Page)
deriving DecidableEq

/-- upload_document (POST /upload): validate the PDF extension, sanitize
the filename, check the size bound, then process the document into chunks
and insert them into the vector store.  Returns (outcome with the number of
chunks created, resulting store state, whether the document processor or
the index was reached). -/
def uploadDocument (caps : Caps) (st : StoreState) (f : UploadFile) :
    Except AppError Nat × StoreState × Bool :=
  if !validatePdf f.filename then (Except.error AppError.notPdf, st, false)
  else if MAX_UPLOAD_SIZE < f.size then (Except.error AppError.tooLarge, st, false)
  else
    match f.pages with
    | none => (Except.error (AppError.internalError "Error processing document".data), st, true)
    | some pgs =>
        let chunks := processPdf CHUNK_SIZE CHUNK_OVERLAP (sanitizeFilename f.filename) pgs
        match addDocuments caps st chunks with
        | (Except.error e, st2) => (Except.error (AppError.internalError e), st2, true)
        | (Except.ok _, st2) => (Except.ok chunks.length, st2, true)

/-! ## Helper lemmas -/

/-- A batched embedding call fails as soon as any item of the batch fails. -/
theorem mapM_eq_none {α β} (f : α → Option β) (l : List α) (x : α) (hx : x ∈ l)
    (hf : f x = none) : l.mapM f = none := by
  rw [← List.mapM'_eq_mapM]
  induction l with
  | nil => cases hx
  | cons a l ih =>
      rcases List.mem_cons.mp hx with rfl | hx2
      · simp [List.mapM', hf]
      · cases hfa : f a <;> simp [List.mapM', hfa, ih hx2]

/-- A successful batched embedding call returns one vector per item. -/
theorem mapM_some_length {α β} (f : α → Option β) (l : List α) (bs : List β)
    (h : l.mapM f = some bs) : bs.length = l.length := by
  rw [← List.mapM'_eq_mapM] at h
  induction l generalizing bs with
  | nil =>
      simp [List.mapM'] at h
      simp [← h]
  | cons a l ih =>
      cases hfa : f a with
      | none => simp [List.mapM', hfa] at h
      | some b =>
          cases hml : l.mapM' f with
          | none => simp [List.mapM', hfa, hml] at h
          | some bs2 =>
              simp [List.mapM', hfa, hml] at h
              simp [← h, ih bs2 hml]

/-- Pairing chunks with equally many vectors yields one entry per chunk. -/
theorem mkEntries_length : ∀ (cs : List Chunk) (vs : List (List ℚ)),
    cs.length = vs.length → (mkEntries cs vs).length = cs.length := by
  intro cs
  induction cs with
  | nil => intro vs _; simp [mkEntries]
  | cons c cs ih =>
      intro vs hlen
      cases vs with
      | nil => simp at hlen
      | cons v vs =>
          simp [mkEntries]
          exact ih vs (by simpa using hlen)

/-- The collection count always equals the number of visible entries. -/
theorem getCollectionCount_eq_entries (st : StoreState) :
    getCollectionCount st = (entriesOf st).length := by
  cases h : st.collection <;> simp [getCollectionCount, entriesOf, h]

/-- Whatever pieces remain, merging a non-empty current chunk produces a
non-empty chunk list whose first chunk extends the current chunk on the
right. -/
theorem mergeAux_head_extends (chunkSize overlap : Nat) :
    ∀ (ps : List Str) (cur : Str), cur ≠ [] →
      ∃ c rest, mergeAux chunkSize overlap ps cur = c :: rest ∧ cur <+: c := by
  intro ps
  induction ps with
  | nil =>
      intro cur hcur
      refine ⟨cur, [], ?_, List.prefix_refl cur⟩
      simp [mergeAux, List.isEmpty_iff, hcur]
  | cons p ps ih =>
      intro cur hcur
      rw [mergeAux]
      rw [if_neg (by simp [List.isEmpty_iff, hcur])]
      by_cases hfit : cur.length + p.length ≤ chunkSize
      · rw [if_pos hfit]
        obtain ⟨c, rest, heq, hpre⟩ := ih (cur ++ p) (by simp [hcur])
        exact ⟨c, rest, heq, List.IsPrefix.trans (List.prefix_append cur p) hpre⟩
      · rw [if_neg hfit]
        exact ⟨cur, _, rfl, List.prefix_refl cur⟩

/-- In any merged chunk list, the overlap window of each chunk — its last
`overlap` characters — is a prefix of the next chunk. -/
theorem mergeAux_chain (chunkSize overlap : Nat) :
    ∀ (ps : List Str) (cur : Str),
      List.Chain' (fun a b => takeRight overlap a <+: b)
        (mergeAux chunkSize overlap ps cur) := by
  intro ps
  induction ps with
  | nil =>
      intro cur
      rw [mergeAux]
      by_cases h : cur.isEmpty <;> simp [h]
  | cons p ps ih =>
      intro cur
      rw [mergeAux]
      by_cases hemp : cur.isEmpty
      · rw [if_pos hemp]
        exact ih p
      · rw [if_neg hemp]
        by_cases hfit : cur.length + p.length ≤ chunkSize
        · rw [if_pos hfit]
          exact ih (cur ++ p)
        · rw [if_neg hfit]
          rw [List.chain'_cons']
          refine ⟨?_, ih _⟩
          intro y hy
          by_cases hnew : takeRight overlap cur ++ p = []
          · rw [List.append_eq_nil] at hnew
            rw [hnew.1]
            exact List.nil_prefix
          · obtain ⟨c, rest, heq, hpre⟩ := mergeAux_head_extends chunkSize overlap ps _ hnew
            rw [heq] at hy
            simp only [List.head?_cons, Option.mem_def, Option.some.injEq] at hy
            subst hy
            exact List.IsPrefix.trans (List.prefix_append _ p) hpre

/-- The overlap window of a sufficiently long chunk has exactly the overlap
length. -/
theorem takeRight_length (n : Nat) (l : Str) (h : n ≤ l.length) :
    (takeRight n l).length = n := by
  simp [takeRight]
  omega

/-- The chunks produced by the text splitter form a chain in which each
overlap window is a prefix of the following chunk. -/
theorem splitText_chain (chunkSize overlap : Nat) (text : Str) :
    List.Chain' (fun a b => takeRight overlap a <+: b)
      (splitText chunkSize overlap text) :=
  mergeAux_chain chunkSize overlap _ []

/-- Dropping the index component of an enumeration recovers the list. -/
theorem enumerate_map_snd {α} (i : Nat) (l : List α) :
    (enumerate i l).map Prod.snd = l := by
  induction l generalizing i with
  | nil => rfl
  | cons a l ih => simp [enumerate, ih]

/-- The index components of an enumeration count up from the start index. -/
theorem enumerate_map_fst {α} (i : Nat) (l : List α) :
    (enumerate i l).map Prod.fst = List.range' i l.length := by
  induction l generalizing i with
  | nil => rfl
  | cons a l ih => simp [enumerate, List.range', ih]

/-- Enumeration preserves length. -/
theorem enumerate_length {α} (i : Nat) (l : List α) :
    (enumerate i l).length = l.length := by
  induction l generalizing i with
  | nil => rfl
  | cons a l ih => simp [enumerate, ih]

/-- A character whose lower-cased form is kept by the sanitizer is itself
kept (upper-case letters are word characters). -/
theorem keepChar_of_toLower (c : Char) (h : keepChar (Char.toLower c) = true) :
    keepChar c = true := by
  unfold Char.toLower at h
  by_cases hc : Char.toNat c ≥ 65 ∧ Char.toNat c ≤ 90
  · have hu : c.isUpper = true := by
      simp only [Char.isUpper, Bool.and_eq_true, decide_eq_true_eq, ge_iff_le]
      constructor
      · rw [UInt32.le_def, BitVec.le_def]
        simpa using hc.1
      · rw [UInt32.le_def, BitVec.le_def]
        simpa using hc.2
    simp [keepChar, isWordChar, Char.isAlphanum, Char.isAlpha, hu]
  · simp only [if_neg hc] at h
    exact h

/-- `takeWhile` passes over a block of characters that all satisfy the
predicate. -/
theorem takeWhile_append_all {p : Char → Bool} (l₁ l₂ : Str)
    (h : ∀ c ∈ l₁, p c = true) :
    (l₁ ++ l₂).takeWhile p = l₁ ++ l₂.takeWhile p := by
  induction l₁ with
  | nil => rfl
  | cons a l ih =>
      simp only [List.cons_append, List.takeWhile_cons, h a (List.mem_cons_self a l)]
      simp [ih (fun c hc => h c (List.mem_cons_of_mem a hc))]

/-- A filename that passes the PDF validation sanitizes to a name of at
least four characters: its four final characters lower-case to `.pdf`, all
of which survive the basename step and the character filter. -/
theorem sanitize_pdf_len (s : Str) (h : validatePdf s = true) :
    4 ≤ (sanitizeFilename s).length := by
  unfold validatePdf at h
  obtain ⟨t, ht⟩ := List.isSuffixOf_iff_suffix.mp h
  set n := t.length with hn
  have hdrop : (s.drop n).map Char.toLower = ".pdf".data := by
    rw [List.map_drop, ← ht, hn, List.drop_left]
  have hd4 : (s.drop n).length = 4 := by
    have := congrArg List.length hdrop
    simpa using this
  have hkeep : ∀ c ∈ s.drop n, keepChar c = true := by
    intro c hc
    have hmem : Char.toLower c ∈ ".pdf".data :=
      hdrop ▸ List.mem_map_of_mem Char.toLower hc
    apply keepChar_of_toLower
    have hall : ∀ x ∈ (".pdf".data : Str), keepChar x = true := by decide
    exact hall _ hmem
  have hnoslash : ∀ c ∈ s.drop n, c ≠ '/' := by
    intro c hc hceq
    subst hceq
    have hmem : Char.toLower '/' ∈ ".pdf".data :=
      hdrop ▸ List.mem_map_of_mem Char.toLower hc
    rw [show Char.toLower '/' = '/' from by decide] at hmem
    exact absurd hmem (by decide)
  have hsplit : s = s.take n ++ s.drop n := (List.take_append_drop n s).symm
  have hrev : s.reverse = (s.drop n).reverse ++ (s.take n).reverse := by
    conv_lhs => rw [hsplit]
    rw [List.reverse_append]
  have hbase : basename s
      = (List.takeWhile (fun c => decide (c ≠ '/')) (s.take n).reverse).reverse
        ++ s.drop n := by
    unfold basename
    rw [hrev, takeWhile_append_all _ _
      (fun c hc => by simp [hnoslash c (List.mem_reverse.mp hc)]),
      List.reverse_append, List.reverse_reverse]
  unfold sanitizeFilename
  rw [hbase, List.filter_append, List.filter_eq_self.mpr hkeep]
  simp [hd4]

/-- Equality of fallible results is decidable, so witnesses can be checked
by evaluation. -/
instance {ε α : Type} [DecidableEq ε] [DecidableEq α] : DecidableEq (Except ε α) :=
  fun x y =>
    match x, y with
    | Except.error a, Except.error b =>
        if h : a = b then Decidable.isTrue (by rw [h])
        else Decidable.isFalse (by intro hh; injection hh; exact h (by assumption))
    | Except.ok a, Except.ok b =>
        if h : a = b then Decidable.isTrue (by rw [h])
        else Decidable.isFalse (by intro hh; injection hh; exact h (by assumption))
    | Except.error _, Except.ok _ => Decidable.isFalse (by intro hh; injection hh)
    | Except.ok _, Except.error _ => Decidable.isFalse (by intro hh; injection hh)

/-! ## Concrete fixtures for witnesses -/

/-- Capabilities whose embedding always succeeds and whose distance ranks an
entry by the head of its stored vector. -/
def capsW : Caps where
  embed := fun _ => some [1]
  dist := fun _ v => v.headD 0
  generate := fun _ => some "The answer".data

/-- Capabilities whose embedding always fails. -/
def capsNoEmbed : Caps where
  embed := fun _ => none
  dist := fun _ _ => 0
  generate := fun _ => none

/-- Capabilities whose embedding fails exactly on the text `bad`. -/
def capsPartial : Caps where
  embed := fun t => if t = "bad".data then none else some [1]
  dist := fun _ v => v.headD 0
  generate := fun _ => some "ok".data

/-- Fixture entry at distance 3 under `capsW`. -/
def entryA : Entry := ⟨"alpha text".data, ⟨"doc.pdf".data, 0, 0⟩, [3]⟩

/-- Fixture entry at distance 1 under `capsW`. -/
def entryB : Entry := ⟨"beta text".data, ⟨"doc.pdf".data, 1, 1⟩, [1]⟩

/-- Fixture entry at distance 2 under `capsW`. -/
def entryC : Entry := ⟨"gamma text".data, ⟨"doc.pdf".data, 2, 2⟩, [2]⟩

/-- A store holding three entries. -/
def stW : StoreState := ⟨some [entryA, entryB, entryC]⟩

/-- A store with an existing but empty collection. -/
def stEmpty : StoreState := ⟨some []⟩

/-- A store whose collection does not exist yet. -/
def stMissing : StoreState := ⟨none⟩

/-- A chunk whose embedding succeeds under `capsPartial`. -/
def chunkGood : Chunk := ⟨"good".data, ⟨"doc.pdf".data, 0, 0⟩⟩

/-- A chunk whose embedding fails under `capsPartial`. -/
def chunkBad : Chunk := ⟨"bad".data, ⟨"doc.pdf".data, 0, 1⟩⟩

/-- The three stored entries of `stW` as search results, ordered by
ascending distance under `capsW`. -/
def resListW : List ScoredResult :=
  [⟨"beta text".data, ⟨"doc.pdf".data, 1, 1⟩, 1⟩,
   ⟨"gamma text".data, ⟨"doc.pdf".data, 2, 2⟩, 2⟩,
   ⟨"alpha text".data, ⟨"doc.pdf".data, 0, 0⟩, 3⟩]

/-! ## Claims -/

/-- Claim C1: for every index and positive k, a successful
`similarity_search` returns at most k results sorted by non-decreasing
distance; a k exceeding the index size returns all stored entries, and an
empty index yields an empty result list rather than an error. -/
theorem search_ordering (caps : Caps) (st : StoreState) (q : Str) (k : Nat)
    (qv : List ℚ) (res : List ScoredResult)
    (hq : caps.embed q = some qv) (hk : 0 < k)
    (hres : similaritySearch caps st q k = Except.ok res) :
    res.length ≤ k ∧
    List.Sorted (fun a b => a ≤ b) (res.map ScoredResult.score) ∧
    (getCollectionCount st ≤ k → res.length = getCollectionCount st) ∧
    (getCollectionCount st = 0 → res = []) := by
  have hres2 : res
      = ((((entriesOf st).map (fun e => (e, caps.dist qv e.vector))).insertionSort
          scoreLE).map (fun p => ⟨p.1.text, p.1.metadata, p.2⟩)).take k := by
    simp [similaritySearch, knn, hq] at hres
    exact hres.symm
  subst hres2
  refine ⟨?_, ?_, ?_, ?_⟩
  · simp [List.length_take]
  · rw [← List.map_take, List.map_map]
    have hs2 := List.Pairwise.sublist (List.take_sublist k _)
      (List.sorted_insertionSort scoreLE
        ((entriesOf st).map (fun e => (e, caps.dist qv e.vector))))
    exact List.pairwise_map.mpr hs2
  · intro hck
    rw [getCollectionCount_eq_entries] at hck ⊢
    simp [List.length_take, List.length_insertionSort]
    omega
  · intro hc0
    rw [getCollectionCount_eq_entries] at hc0
    have hnil : entriesOf st = [] := List.length_eq_zero.mp hc0
    simp [hnil]

/-- Witness for C1: a concrete search over the three-entry store with k = 5
returns all three entries in ascending-distance order. -/
theorem search_ordering_witness :
    capsW.embed "q".data = some [1] ∧ (0 : Nat) < 5 ∧
    similaritySearch capsW stW "q".data 5 = Except.ok resListW ∧
    (resListW.length ≤ 5 ∧
     List.Sorted (fun a b => a ≤ b) (resListW.map ScoredResult.score) ∧
     (getCollectionCount stW ≤ 5 → resListW.length = getCollectionCount stW) ∧
     (getCollectionCount stW = 0 → resListW = [])) :=
  ⟨rfl, by decide, by decide,
   search_ordering capsW stW "q".data 5 [1] resListW rfl (by decide) (by decide)⟩

/-- Claim C2: if the embedding capability errors for any item of the batch,
`add_documents` fails and commits nothing: the collection count after the
failed call equals the count before it. -/
theorem insert_all_or_nothing (caps : Caps) (st : StoreState)
    (chunks : List Chunk) (c : Chunk)
    (hc : c ∈ chunks) (he : caps.embed c.text = none) :
    (addDocuments caps st chunks).1
        = Except.error "Error adding documents to vector store".data ∧
    getCollectionCount (addDocuments caps st chunks).2 = getCollectionCount st := by
  have hmm : (chunks.map Chunk.text).mapM caps.embed = none :=
    mapM_eq_none _ _ c.text (List.mem_map_of_mem Chunk.text hc) he
  constructor <;> simp only [addDocuments, hmm]

/-- Witness for C2: inserting a batch whose second chunk fails to embed
leaves the empty store at count 0 even though the first chunk embeds. -/
theorem insert_all_or_nothing_witness :
    chunkBad ∈ [chunkGood, chunkBad] ∧
    capsPartial.embed chunkBad.text = none ∧
    ((addDocuments capsPartial stEmpty [chunkGood, chunkBad]).1
        = Except.error "Error adding documents to vector store".data ∧
     getCollectionCount (addDocuments capsPartial stEmpty [chunkGood, chunkBad]).2
        = getCollectionCount stEmpty) :=
  ⟨by decide, by decide,
   insert_all_or_nothing capsPartial stEmpty [chunkGood, chunkBad] chunkBad
     (by decide) (by decide)⟩

/-- Claim C3: on an empty index, a query is rejected with the no-documents
error and the generation capability is never invoked. -/
theorem noDocuments_before_generation (caps : Caps) (st : StoreState) (q : Str)
    (h : getCollectionCount st = 0) :
    queryDocuments caps st q = (Except.error AppError.noDocuments, false) := by
  simp [queryDocuments, h]

/-- Witness for C3: querying the empty store is rejected without invoking
generation. -/
theorem noDocuments_before_generation_witness :
    getCollectionCount stEmpty = 0 ∧
    queryDocuments capsW stEmpty "What is X?".data
      = (Except.error AppError.noDocuments, false) :=
  ⟨rfl, noDocuments_before_generation capsW stEmpty "What is X?".data rfl⟩

/-- Claim C7: the collection count equals the number of stored entries and
is 0 — not an error — when the collection does not exist; the other store
operations propagate their errors instead of swallowing them. -/
theorem count_contract (st stN : StoreState) (caps : Caps) (q : Str) (k : Nat)
    (chunks : List Chunk) (c : Chunk)
    (hN : stN.collection = none) (hq : caps.embed q = none)
    (hc : c ∈ chunks) (he : caps.embed c.text = none) :
    getCollectionCount st = (entriesOf st).length ∧
    getCollectionCount stN = 0 ∧
    similaritySearch caps st q k
        = Except.error "Error performing similarity search".data ∧
    (addDocuments caps st chunks).1
        = Except.error "Error adding documents to vector store".data ∧
    (clearCollection stN).1 = Except.error "Error clearing collection".data := by
  refine ⟨getCollectionCount_eq_entries st, ?_, ?_, ?_, ?_⟩
  · simp [getCollectionCount, hN]
  · simp [similaritySearch, knn, hq]
  · simp only [addDocuments,
      mapM_eq_none caps.embed (chunks.map Chunk.text) c.text
        (List.mem_map_of_mem Chunk.text hc) he]
  · simp [clearCollection, hN]

/-- Witness for C7: the missing collection counts 0; failing capabilities
surface errors from search and insert, and clearing a missing collection
surfaces an error. -/
theorem count_contract_witness :
    stMissing.collection = none ∧
    capsNoEmbed.embed "q".data = none ∧
    chunkGood ∈ [chunkGood] ∧
    capsNoEmbed.embed chunkGood.text = none ∧
    (getCollectionCount stW = (entriesOf stW).length ∧
     getCollectionCount stMissing = 0 ∧
     similaritySearch capsNoEmbed stW "q".data 5
        = Except.error "Error performing similarity search".data ∧
     (addDocuments capsNoEmbed stW [chunkGood]).1
        = Except.error "Error adding documents to vector store".data ∧
     (clearCollection stMissing).1
        = Except.error "Error clearing collection".data) :=
  ⟨rfl, rfl, by decide, rfl,
   count_contract stW stMissing capsNoEmbed "q".data 5 [chunkGood] chunkGood
     rfl rfl (by decide) rfl⟩

/-- Claim C8: clearing an existing collection succeeds and re-establishes
an empty usable collection: the count drops to 0, searching it returns the
empty list, and a subsequent insert succeeds without any caller-side
re-creation, raising the count to the batch size. -/
theorem clear_reestablishes (caps : Caps) (st : StoreState) (es : List Entry)
    (chunks : List Chunk) (vecs : List (List ℚ)) (q : Str) (k : Nat) (qv : List ℚ)
    (h : st.collection = some es) (hq : caps.embed q = some qv)
    (hv : (chunks.map Chunk.text).mapM caps.embed = some vecs) :
    clearCollection st = (Except.ok true, ⟨some []⟩) ∧
    getCollectionCount (clearCollection st).2 = 0 ∧
    similaritySearch caps (clearCollection st).2 q k = Except.ok [] ∧
    (addDocuments caps (clearCollection st).2 chunks).1 = Except.ok true ∧
    getCollectionCount (addDocuments caps (clearCollection st).2 chunks).2
        = chunks.length := by
  have hclear : clearCollection st = (Except.ok true, ⟨some []⟩) := by
    simp [clearCollection, h]
  have hlv : vecs.length = (chunks.map Chunk.text).length := mapM_some_length _ _ _ hv
  refine ⟨hclear, ?_, ?_, ?_, ?_⟩ <;> rw [hclear]
  · rfl
  · simp [similaritySearch, knn, hq, entriesOf]
  · simp only [addDocuments, hv]
  · have hlv2 : chunks.length = vecs.length := by simpa using hlv.symm
    simp only [addDocuments, hv]
    simp [getCollectionCount, entriesOf, mkEntries_length chunks vecs hlv2]

/-- Witness for C8: clearing the three-entry store right after its ingest
yields an empty usable collection into which one chunk inserts cleanly. -/
theorem clear_reestablishes_witness :
    stW.collection = some [entryA, entryB, entryC] ∧
    capsW.embed "q".data = some [1] ∧
    ([chunkGood].map Chunk.text).mapM capsW.embed = some [[1]] ∧
    (clearCollection stW = (Except.ok true, ⟨some []⟩) ∧
     getCollectionCount (clearCollection stW).2 = 0 ∧
     similaritySearch capsW (clearCollection stW).2 "q".data 5 = Except.ok [] ∧
     (addDocuments capsW (clearCollection stW).2 [chunkGood]).1 = Except.ok true ∧
     getCollectionCount (addDocuments capsW (clearCollection stW).2 [chunkGood]).2
        = [chunkGood].length) :=
  ⟨rfl, rfl, by decide,
   clear_reestablishes capsW stW [entryA, entryB, entryC] [chunkGood] [[1]]
     "q".data 5 [1] rfl rfl (by decide)⟩

/-- A store holding a single entry whose text is exactly 50 characters. -/
def entry50 : Entry := ⟨List.replicate 50 'a', ⟨"doc.pdf".data, 0, 0⟩, [1]⟩

/-- Single-entry store for the citation witness. -/
def st50 : StoreState := ⟨some [entry50]⟩

/-- The query result produced by `capsW` over `st50`. -/
def res50 : QueryResult :=
  ⟨"The answer".data,
   [⟨List.replicate 50 'a' ++ "...".data, "doc.pdf".data, 0⟩],
   "q".data⟩

/-- Claim C4: in a successful query, each source citation displays the
first 200 characters of the retrieved chunk text with the ellipsis marker
always appended — a text of length L displays as min L 200 + 3 characters,
so a 50-character chunk displays as 53 — and the source and page metadata
are preserved. -/
theorem citation_truncation (caps : Caps) (st : StoreState) (q : Str)
    (r : QueryResult) (i : Nat)
    (h : (ragChainQuery caps st q).1 = Except.ok r)
    (hi : i < r.sources.length) (hd : i < (retrievedDocs caps st q).length) :
    r.sources.length = (retrievedDocs caps st q).length ∧
    (r.sources.get ⟨i, hi⟩).text
        = ((retrievedDocs caps st q).get ⟨i, hd⟩).page_content.take 200
          ++ "...".data ∧
    (r.sources.get ⟨i, hi⟩).text.length
        = min ((retrievedDocs caps st q).get ⟨i, hd⟩).page_content.length 200 + 3 ∧
    (r.sources.get ⟨i, hi⟩).source = ((retrievedDocs caps st q).get ⟨i, hd⟩).source ∧
    (r.sources.get ⟨i, hi⟩).page = ((retrievedDocs caps st q).get ⟨i, hd⟩).page := by
  have hsrc : r.sources = (retrievedDocs caps st q).map formatSource := by
    cases hknn : knn caps st q TOP_K_RESULTS with
    | none => simp [ragChainQuery, hknn] at h
    | some rs =>
        simp only [ragChainQuery, hknn] at h
        cases hgen : caps.generate (buildPrompt (contextOf (rs.map (fun p =>
            SourceDoc.mk p.1.text p.1.metadata.source p.1.metadata.page))) q) with
        | none => rw [hgen] at h; simp at h
        | some ans =>
            rw [hgen] at h
            simp only [Except.ok.injEq] at h
            rw [← h]
            simp [retrievedDocs, hknn]
  have hget : r.sources.get ⟨i, hi⟩
      = formatSource ((retrievedDocs caps st q).get ⟨i, hd⟩) := by
    rw [List.get_of_eq hsrc]
    simp [List.get_eq_getElem, List.getElem_map]
  refine ⟨by rw [hsrc, List.length_map], ?_, ?_, ?_, ?_⟩ <;> rw [hget]
  · rfl
  · simp [formatSource, List.length_take]
    omega
  · rfl
  · rfl

/-- Witness for C4: a 50-character chunk is displayed as its full text plus
the ellipsis — 53 characters — with source and page intact. -/
theorem citation_truncation_witness :
    (ragChainQuery capsW st50 "q".data).1 = Except.ok res50 ∧
    0 < res50.sources.length ∧
    0 < (retrievedDocs capsW st50 "q".data).length ∧
    (res50.sources.length = (retrievedDocs capsW st50 "q".data).length ∧
     (res50.sources.get ⟨0, Nat.one_pos⟩).text
        = ((retrievedDocs capsW st50 "q".data).get
            ⟨0, Nat.one_pos⟩).page_content.take 200 ++ "...".data ∧
     (res50.sources.get ⟨0, Nat.one_pos⟩).text.length
        = min ((retrievedDocs capsW st50 "q".data).get
            ⟨0, Nat.one_pos⟩).page_content.length 200 + 3 ∧
     (res50.sources.get ⟨0, Nat.one_pos⟩).source
        = ((retrievedDocs capsW st50 "q".data).get ⟨0, Nat.one_pos⟩).source ∧
     (res50.sources.get ⟨0, Nat.one_pos⟩).page
        = ((retrievedDocs capsW st50 "q".data).get ⟨0, Nat.one_pos⟩).page) :=
  ⟨by decide, by decide, by decide,
   citation_truncation capsW st50 "q".data res50 0 (by decide)
     Nat.one_pos Nat.one_pos⟩

/-- Two-page fixture: 250 characters per page, different pages. -/
def pagesCex : List Page :=
  [⟨0, List.replicate 250 'A'⟩, ⟨1, List.replicate 250 'B'⟩]

set_option maxRecDepth 8000 in
/-- Claim C5 counterexample: chunking is applied to each page text
separately, so two adjacent chunks of the same document that come from
different pages share no overlap window even though both exceed the
configured overlap length: under the default configuration the 250-character
pages A-page and B-page each become one chunk, and the 200-character suffix
of chunk 0 differs from the 200-character prefix of chunk 1. -/
theorem chunk_overlap_cex :
    (processPdf CHUNK_SIZE CHUNK_OVERLAP "doc.pdf".data pagesCex).map Chunk.text
        = [List.replicate 250 'A', List.replicate 250 'B'] ∧
    CHUNK_OVERLAP < (List.replicate 250 'A' : Str).length ∧
    CHUNK_OVERLAP < (List.replicate 250 'B' : Str).length ∧
    takeRight CHUNK_OVERLAP (List.replicate 250 'A')
        ≠ (List.replicate 250 'B' : Str).take CHUNK_OVERLAP := by decide

/-- Claim C5 (amended): for adjacent chunks produced by the splitter from
one page text, when both chunks exceed the overlap length, the
overlap-length suffix of the earlier chunk equals the overlap-length prefix
of the later chunk. -/
theorem chunk_overlap_window (chunkSize overlap : Nat) (text : Str) (i : Nat)
    (a b : Str)
    (ha : (splitText chunkSize overlap text)[i]? = some a)
    (hb : (splitText chunkSize overlap text)[i + 1]? = some b)
    (hla : overlap < a.length) (hlb : overlap < b.length) :
    takeRight overlap a = b.take overlap := by
  have hchain := splitText_chain chunkSize overlap text
  have hi1 : i + 1 < (splitText chunkSize overlap text).length :=
    (List.getElem?_eq_some.mp hb).1
  have hR := List.chain'_iff_get.mp hchain i (by omega)
  rw [List.get_eq_getElem, List.get_eq_getElem,
      (List.getElem?_eq_some.mp ha).2, (List.getElem?_eq_some.mp hb).2] at hR
  have hlen : (takeRight overlap a).length = overlap :=
    takeRight_length _ _ (by omega)
  have hpre := List.prefix_iff_eq_take.mp hR
  rw [hlen] at hpre
  exact hpre

/-- Witness for C5: splitting fifteen As with chunk size 10 and overlap 2
gives chunks of 10 and 7 characters whose 2-character overlap window
matches. -/
theorem chunk_overlap_window_witness :
    (splitText 10 2 (List.replicate 15 'A'))[0]? = some (List.replicate 10 'A') ∧
    (splitText 10 2 (List.replicate 15 'A'))[1]? = some (List.replicate 7 'A') ∧
    2 < (List.replicate 10 'A' : Str).length ∧
    2 < (List.replicate 7 'A' : Str).length ∧
    takeRight 2 (List.replicate 10 'A') = (List.replicate 7 'A' : Str).take 2 :=
  ⟨by decide, by decide, by decide, by decide,
   chunk_overlap_window 10 2 (List.replicate 15 'A') 0
     (List.replicate 10 'A') (List.replicate 7 'A')
     (by decide) (by decide) (by decide) (by decide)⟩

/-- Claim C6: the chunks of a processed document carry sequence numbers
0..N-1 in output order, each chunk's text is tagged with the page number of
the page it was derived from, and every chunk records the document as its
source. -/
theorem chunk_sequence_numbers (chunkSize overlap : Nat) (filename : Str)
    (pages : List Page) :
    (processPdf chunkSize overlap filename pages).map (fun c => c.metadata.chunk_id)
        = List.range (processPdf chunkSize overlap filename pages).length ∧
    (processPdf chunkSize overlap filename pages).map
        (fun c => (c.text, c.metadata.page))
        = pages.flatMap (fun pg =>
            (splitText chunkSize overlap pg.text).map (fun t => (t, pg.page))) ∧
    ∀ c ∈ processPdf chunkSize overlap filename pages,
      c.metadata.source = filename := by
  unfold processPdf
  refine ⟨?_, ?_, ?_⟩
  · rw [List.map_map]
    rw [show ((fun c => c.metadata.chunk_id) ∘
          fun p => (⟨p.2.1, ⟨filename, p.2.2, p.1⟩⟩ : Chunk))
        = (Prod.fst : Nat × (Str × Nat) → Nat) from rfl]
    rw [enumerate_map_fst, List.length_map, enumerate_length]
    exact (List.range_eq_range' _).symm
  · rw [List.map_map]
    rw [show ((fun c => (c.text, c.metadata.page)) ∘
          fun p => (⟨p.2.1, ⟨filename, p.2.2, p.1⟩⟩ : Chunk))
        = (Prod.snd : Nat × (Str × Nat) → Str × Nat) from rfl]
    rw [enumerate_map_snd]
  · intro c hc
    simp only [List.mem_map] at hc
    obtain ⟨p, _, rfl⟩ := hc
    rfl

/-- Witness for C6: a concrete two-page document gets sequence numbers
0..N-1, page tags from its pages, and its filename as source on every
chunk. -/
theorem chunk_sequence_numbers_witness :
    (processPdf 10 2 "doc.pdf".data pagesCex).map (fun c => c.metadata.chunk_id)
        = List.range (processPdf 10 2 "doc.pdf".data pagesCex).length ∧
    (processPdf 10 2 "doc.pdf".data pagesCex).map
        (fun c => (c.text, c.metadata.page))
        = pagesCex.flatMap (fun pg =>
            (splitText 10 2 pg.text).map (fun t => (t, pg.page))) ∧
    ∀ c ∈ processPdf 10 2 "doc.pdf".data pagesCex,
      c.metadata.source = "doc.pdf".data :=
  chunk_sequence_numbers 10 2 "doc.pdf".data pagesCex

/-- Whether a fallible result is a success. -/
def isOkE {ε α : Type} : Except ε α → Bool
  | Except.ok _ => true
  | Except.error _ => false

/-- Claim C9 counterexample: an empty question string is not rejected with
a validation error: on a non-empty store the query endpoint consults the
index count first, then runs the full RAG chain on the empty question and
returns a successful answer, invoking the generation capability. -/
theorem empty_question_not_validated :
    getCollectionCount stW ≠ 0 ∧
    isOkE (queryDocuments capsW stW []).1 = true ∧
    (queryDocuments capsW stW []).2 = true := by decide

/-- Claim C9 (amended): malformed uploads — a non-PDF filename or an
oversized file — are rejected with a validation error before the document
processor or the index is touched and leave the store unchanged, while the
question string of a query is never validated: on a non-empty index any
question, the empty string included, is handed to the RAG chain and its
outcome is passed through. -/
theorem upload_validation_before_index (caps : Caps) (st : StoreState)
    (f g : UploadFile) (q : Str) (r : QueryResult) (e : Str)
    (hf : validatePdf f.filename = false)
    (hg : validatePdf g.filename = true) (hsz : MAX_UPLOAD_SIZE < g.size)
    (hc : getCollectionCount st ≠ 0) :
    uploadDocument caps st f = (Except.error AppError.notPdf, st, false) ∧
    uploadDocument caps st g = (Except.error AppError.tooLarge, st, false) ∧
    ((ragChainQuery caps st q).1 = Except.ok r →
        (queryDocuments caps st q).1 = Except.ok r) ∧
    ((ragChainQuery caps st q).1 = Except.error e →
        (queryDocuments caps st q).1
          = Except.error (AppError.internalError e)) ∧
    (queryDocuments caps st q).2 = (ragChainQuery caps st q).2 := by
  refine ⟨?_, ?_, ?_, ?_, ?_⟩
  · simp [uploadDocument, hf]
  · simp [uploadDocument, hg, hsz]
  · intro h
    unfold queryDocuments
    rw [if_neg hc]
    cases hrq : ragChainQuery caps st q with
    | mk a b =>
        rw [hrq] at h
        cases a with
        | error e2 => simp at h
        | ok r2 => simpa using h
  · intro h
    unfold queryDocuments
    rw [if_neg hc]
    cases hrq : ragChainQuery caps st q with
    | mk a b =>
        rw [hrq] at h
        cases a with
        | error e2 => simp at h; simp [h]
        | ok r2 => simp at h
  · unfold queryDocuments
    rw [if_neg hc]
    cases hrq : ragChainQuery caps st q with
    | mk a b => cases a <;> simp

/-- A rejected upload: wrong extension. -/
def fileTxt : UploadFile := ⟨"doc.txt".data, 0, none⟩

/-- A rejected upload: PDF name but oversized content. -/
def fileBig : UploadFile := ⟨"big.pdf".data, MAX_UPLOAD_SIZE + 1, none⟩

/-- The source citations `capsW` produces over `stW`. -/
def srcsW : List SourceDisp :=
  [⟨"beta text...".data, "doc.pdf".data, 1⟩,
   ⟨"gamma text...".data, "doc.pdf".data, 2⟩,
   ⟨"alpha text...".data, "doc.pdf".data, 0⟩]

/-- The query result `capsW` produces over `stW` for the empty question. -/
def resQW : QueryResult := ⟨"The answer".data, srcsW, []⟩

/-- Witness for the amended C9: the two malformed uploads are rejected
without touching the store, and the empty question is processed through the
RAG chain on the three-entry store. -/
theorem upload_validation_before_index_witness :
    validatePdf fileTxt.filename = false ∧
    validatePdf fileBig.filename = true ∧
    MAX_UPLOAD_SIZE < fileBig.size ∧
    getCollectionCount stW ≠ 0 ∧
    (uploadDocument capsW stW fileTxt = (Except.error AppError.notPdf, stW, false) ∧
     uploadDocument capsW stW fileBig = (Except.error AppError.tooLarge, stW, false) ∧
     ((ragChainQuery capsW stW []).1 = Except.ok resQW →
        (queryDocuments capsW stW []).1 = Except.ok resQW) ∧
     ((ragChainQuery capsW stW []).1 = Except.error "x".data →
        (queryDocuments capsW stW []).1
          = Except.error (AppError.internalError "x".data)) ∧
     (queryDocuments capsW stW []).2 = (ragChainQuery capsW stW []).2) :=
  ⟨by decide, by decide, by decide, by decide,
   upload_validation_before_index capsW stW fileTxt fileBig [] resQW "x".data
     (by decide) (by decide) (by decide) (by decide)⟩

/-- Claim C10 counterexample: sanitization maps the input `..` to itself —
a bare parent-directory reference — so the sanitized name is not free of
parent-directory components for every input string; such a name cannot
reach the upload path, which validates the `.pdf` extension first. -/
theorem sanitize_parent_component :
    sanitizeFilename "..".data = "..".data ∧
    validatePdf "..".data = false := by decide

/-- Claim C10 (amended): for every input the sanitized filename contains no
path separator, and for every input accepted by the upload validation —
lower-cased name ending in `.pdf` — the sanitized name is also neither
empty nor a current- or parent-directory reference, so the upload writes
only inside the configured upload directory. -/
theorem sanitize_filename_safety (s t : Str) (ht : validatePdf t = true) :
    ('/' ∉ sanitizeFilename s) ∧
    ('/' ∉ sanitizeFilename t) ∧
    sanitizeFilename t ≠ [] ∧
    sanitizeFilename t ≠ ['.'] ∧
    sanitizeFilename t ≠ ['.', '.'] := by
  have hslash : ∀ u : Str, ('/' : Char) ∉ sanitizeFilename u := by
    intro u hmem
    have := List.of_mem_filter hmem
    simp [keepChar, isWordChar] at this
  have h4 := sanitize_pdf_len t ht
  refine ⟨hslash s, hslash t, ?_, ?_, ?_⟩ <;>
    · intro he
      rw [he] at h4
      simp at h4

/-- Witness for the amended C10: a traversal attempt sanitizes to a bare
name, and a mixed-case PDF name stays a safe single component. -/
theorem sanitize_filename_safety_witness :
    validatePdf "My Report.PDF".data = true ∧
    (('/' ∉ sanitizeFilename "../../../etc/passwd".data) ∧
     ('/' ∉ sanitizeFilename "My Report.PDF".data) ∧
     sanitizeFilename "My Report.PDF".data ≠ [] ∧
     sanitizeFilename "My Report.PDF".data ≠ ['.'] ∧
     sanitizeFilename "My Report.PDF".data ≠ ['.', '.']) :=
  ⟨by decide,
   sanitize_filename_safety "../../../etc/passwd".data "My Report.PDF".data
     (by decide)⟩

end RagQA
